import Mathlib

/-!
# Verification of the architect-agent document pipeline

This file gives a shallow embedding, in Lean 4, of the deterministic core of
the `architect-agent` repository: configuration normalization and validation
(`src/types/config.ts`), the prompt-context builder
(`src/utils/context-builder.ts`), key-section extraction
(`src/utils/document-reader.ts`), the sprint-planning step of the story
builder workflow (`src/mastra/workflows/story-builder-workflow.ts`), and the
Jira CSV export plus summary metrics of the automation CLI
(`cli/architect-auto.ts`).

JavaScript strings are modelled as `String`/`List Char`; JavaScript numbers
that the code only ever adds and compares are modelled as `Int` (story
points, velocity) or `Nat` (counters, lengths); dynamically typed values are
modelled by the inductive `JsVal`.  Regular-expression matching in the source
is translated into explicit, executable scanning functions whose doc comments
name the regex they implement.  File I/O and the LLM calls are out of scope
of every claim and are abstracted: file contents and generated texts enter
the model as explicit string parameters.
-/

namespace ArchitectAgent

/-- JavaScript dynamic value, as needed by `normalizeConfig`'s duck typing.
Objects are association lists in property order; `undefined` (an absent
property) is represented by `Option.none` at use sites. -/
inductive JsVal : Type where
  | str (s : String)
  | num (n : Int)
  | bool (b : Bool)
  | null
  | arr (elems : List JsVal)
  | obj (fields : List (String × JsVal))

/-- JavaScript truthiness of a value (`""`, `0`, `false`, `null` are falsy;
arrays and objects are always truthy). -/
def JsVal.truthy : JsVal → Bool
  | .str s => s ≠ ""
  | .num n => n ≠ 0
  | .bool b => b
  | .null => false
  | .arr _ => true
  | .obj _ => true

/-- Whitespace per JavaScript's `\s` / `String.prototype.trim` (ASCII part
plus NBSP and the BOM; the inputs in this development are ASCII). -/
def jsWhitespace (c : Char) : Bool :=
  c = ' ' ∨ c = '\t' ∨ c = '\n' ∨ c = '\r' ∨ c = '\x0b' ∨ c = '\x0c' ∨
  c = ' ' ∨ c = '﻿'

/-- Model of `String.prototype.trim` on a character list. -/
def jsTrimL (l : List Char) : List Char :=
  ((l.dropWhile jsWhitespace).reverse.dropWhile jsWhitespace).reverse

/-- Model of `String.prototype.trim`. -/
def jsTrim (s : String) : String :=
  String.mk (jsTrimL s.data)

mutual

/-- JavaScript `ToString` as used by template literals: `${v}`.
`null` prints as `"null"`, arrays print as their comma join, plain objects
as `"[object Object]"`. -/
def jsTemplateString : JsVal → String
  | .str s => s
  | .num n => toString n
  | .bool b => cond b "true" "false"
  | .null => "null"
  | .arr l => jsArrJoin l
  | .obj _ => "[object Object]"

/-- Model of `Array.prototype.join(',')` (the default separator). -/
def jsArrJoin : List JsVal → String
  | [] => ""
  | [x] => jsJoinElem x
  | x :: y :: r => jsJoinElem x ++ "," ++ jsArrJoin (y :: r)

/-- One element under `Array.prototype.join`: `null`/`undefined` become the
empty string, everything else is converted with `ToString`. -/
def jsJoinElem : JsVal → String
  | .null => ""
  | v => jsTemplateString v

end

/-- Model of `Array.prototype.join(sep)` with an explicit separator. -/
def jsJoinSep (sep : String) (l : List JsVal) : String :=
  String.intercalate sep (l.map jsJoinElem)

/-!
## Configuration model (`src/types/config.ts`)

`normalizeConfig` receives an `unknown`; we model the raw input as a record
of optional `JsVal` properties (absent property = `none`, matching
JavaScript's `undefined`).
-/

/-- Raw, untyped configuration input (the `input: unknown` of
`normalizeConfig`), restricted to the properties the function probes. -/
structure RawInput where
  projectName : Option JsVal := none
  context : Option JsVal := none
  sourceDocuments : Option JsVal := none
  interviewAnswers : Option JsVal := none
  mode : Option JsVal := none
  techStack : Option JsVal := none
  hasFrontend : Option JsVal := none
  teamContext : Option JsVal := none
  jiraProjectKey : Option JsVal := none
  author : Option JsVal := none
  description : Option JsVal := none
  requirements : Option JsVal := none

/-- The normalized configuration (`ProjectConfigV2`).  Fields that the
source merely casts (`as string[]`, `as InterviewAnswers`, `as TeamContext`)
keep their runtime `JsVal` payload, since the cast performs no conversion.
`interviewAnswers` is modelled by the property list of the object; the
`typeof x === 'object'` guard in the source also admits arrays, a degenerate
case no claim involves and which the model maps to `none`. -/
structure ProjectConfigV2 where
  projectName : String
  context : Option String := none
  sourceDocuments : Option (List JsVal) := none
  interviewAnswers : Option (List (String × JsVal)) := none
  mode : Option String := none
  techStack : Option (List JsVal) := none
  hasFrontend : Option Bool := none
  teamContext : Option JsVal := none
  jiraProjectKey : Option String := none
  author : Option String := none
  description : Option String := none
  requirements : Option (List JsVal) := none

/-- Model of `typeof v === 'string' ? v : 'Untitled Project'` for `projectName`. -/
def normProjectName : Option JsVal → String
  | some (.str s) => s
  | _ => "Untitled Project"

/-- Model of `if (typeof v === 'string') result.f = v` for a string-typed field. -/
def normStr : Option JsVal → Option String
  | some (.str s) => some s
  | _ => none

/-- Model of `if (Array.isArray(v)) result.f = v` for an array-typed field. -/
def normArr : Option JsVal → Option (List JsVal)
  | some (.arr l) => some l
  | _ => none

/-- Model of `if (v && typeof v === 'object') result.f = v` for `interviewAnswers`
(see the remark on arrays in `ProjectConfigV2`). -/
def normObj : Option JsVal → Option (List (String × JsVal))
  | some (.obj kvs) => some kvs
  | _ => none

/-- Model of `if (typeof v === 'boolean') result.f = v`. -/
def normBool : Option JsVal → Option Bool
  | some (.bool b) => some b
  | _ => none

/-- Model of `if (v && typeof v === 'object') result.teamContext = v as TeamContext`:
the value passes through unchanged when it is a (truthy) object or array. -/
def normTeam : Option JsVal → Option JsVal
  | some (.arr l) => some (.arr l)
  | some (.obj kvs) => some (.obj kvs)
  | _ => none

/-- Model of `if (typeof config.description === 'string' && !result.context)
result.context = config.description` — note `!result.context` is JavaScript
truthiness, so an empty-string context is also overwritten. -/
def applyDescription (desc : Option JsVal) (ctx : Option String) : Option String :=
  match desc with
  | some (.str d) =>
    match ctx with
    | some s => if s = "" then some d else some s
    | none => some d
  | _ => ctx

/-- Property read with JavaScript truthiness (`obj.k` is `undefined`, hence
falsy, when the key is absent). -/
def propTruthy (kvs : List (String × JsVal)) (k : String) : Bool :=
  match kvs.find? (fun p => p.1 = k) with
  | some p => p.2.truthy
  | none => false

/-- Property assignment `obj.k = v` on an object's property list. -/
def setProp (kvs : List (String × JsVal)) (k : String) (v : JsVal) :
    List (String × JsVal) :=
  if kvs.any (fun p => p.1 = k) then
    kvs.map (fun p => if p.1 = k then (k, v) else p)
  else kvs ++ [(k, v)]

/-- The legacy-`requirements` fold of `normalizeConfig`: when `requirements`
is a non-empty array, ensure `interviewAnswers` exists and, unless it already
has a truthy `mvpScope`, set `mvpScope` to the rendered bullet list. -/
def applyRequirements (reqs : Option JsVal)
    (ans : Option (List (String × JsVal))) : Option (List (String × JsVal)) :=
  match reqs with
  | some (.arr rs) =>
    if rs.length > 0 then
      let kvs := ans.getD []
      if propTruthy kvs "mvpScope" then some kvs
      else some (setProp kvs "mvpScope"
        (.str ("Key requirements:\n- " ++ jsJoinSep "\n- " rs)))
    else ans
  | _ => ans

/-- Model of `normalizeConfig` (`src/types/config.ts:287-343`). -/
def normalizeConfig (c : RawInput) : ProjectConfigV2 where
  projectName := normProjectName c.projectName
  context := applyDescription c.description (normStr c.context)
  sourceDocuments := normArr c.sourceDocuments
  interviewAnswers := applyRequirements c.requirements (normObj c.interviewAnswers)
  mode := normStr c.mode
  techStack := normArr c.techStack
  hasFrontend := normBool c.hasFrontend
  teamContext := normTeam c.teamContext
  jiraProjectKey := normStr c.jiraProjectKey
  author := normStr c.author

/-- Re-reading a normalized configuration as a raw input: a `ProjectConfigV2`
object is just a JavaScript record whose properties carry the indicated
values, so this is the identity coercion. -/
def ProjectConfigV2.toRaw (c : ProjectConfigV2) : RawInput where
  projectName := some (.str c.projectName)
  context := c.context.map .str
  sourceDocuments := c.sourceDocuments.map .arr
  interviewAnswers := c.interviewAnswers.map .obj
  mode := c.mode.map .str
  techStack := c.techStack.map .arr
  hasFrontend := c.hasFrontend.map .bool
  teamContext := c.teamContext
  jiraProjectKey := c.jiraProjectKey.map .str
  author := c.author.map .str
  description := c.description.map .str
  requirements := c.requirements.map .arr

/-- Model of `v && v.trim().length > 0` for an interview-answer value.  The TS type of
the values is `string | undefined`; on a truthy non-string value the
JavaScript expression would throw a `TypeError` (`v.trim` is not a
function); the model is total and returns the value's truthiness in that
out-of-contract case.  Every claim below only involves string-valued (or
absent) answers, where the model and the code agree. -/
def answerNonempty : JsVal → Bool
  | .str s => s ≠ "" && jsTrim s ≠ ""
  | v => v.truthy

/-- Model of `config.context && config.context.trim().length > 0`. -/
def hasContextB (c : ProjectConfigV2) : Bool :=
  match c.context with
  | some s => s ≠ "" && jsTrim s ≠ ""
  | none => false

/-- Model of `config.sourceDocuments && config.sourceDocuments.length > 0`. -/
def hasSourceDocsB (c : ProjectConfigV2) : Bool :=
  match c.sourceDocuments with
  | some l => l.length > 0
  | none => false

/-- Model of `config.interviewAnswers && Object.values(...).some(v => v && v.trim().length > 0)`. -/
def hasInterviewAnswersB (c : ProjectConfigV2) : Bool :=
  match c.interviewAnswers with
  | some kvs => kvs.any (fun p => answerNonempty p.2)
  | none => false

/-- Model of `validateConfig` (`src/types/config.ts:351-390`).  Errors are collected
in source order: missing `projectName`, missing context source, invalid
`mode`, invalid `sourceDocuments` entries. -/
def validateConfig (c : ProjectConfigV2) : List String :=
  let projectNameErrors : List String :=
    if c.projectName = "" then ["Missing required field: projectName"] else []
  let contextErrors : List String :=
    if hasContextB c || hasSourceDocsB c || hasInterviewAnswersB c then []
    else ["Configuration needs context. Provide at least one of: " ++
          "context, sourceDocuments, or interviewAnswers"]
  let modeErrors : List String :=
    match c.mode with
    | some m =>
      if m ≠ "" && ¬ (m ∈ ["PRD", "TDR", "FRONTEND_TDR", "STORIES", "ALL"]) then
        ["Invalid mode: " ++ m ++ ". Valid modes: PRD, TDR, FRONTEND_TDR, STORIES, ALL"]
      else []
    | none => []
  let sourceDocErrors : List String :=
    match c.sourceDocuments with
    | some l => l.filterMap (fun v =>
        match v with
        | .str _ => none
        | v => some ("Invalid sourceDocument path: " ++ jsTemplateString v))
    | none => []
  projectNameErrors ++ contextErrors ++ modeErrors ++ sourceDocErrors

/-!
## Regex scanning primitives

The regular expressions of the source are fixed patterns; each is translated
into an explicit scanning function over `List Char` (JavaScript strings).
Positions are indices into the list; `l.get? i` is the character at `i`.
-/

/-- Case-insensitive ASCII character comparison (the `i` regex flag). -/
def charEqCI (a b : Char) : Bool :=
  a.toLower = b.toLower

/-- Does `pat` match literally at the head of `l` (case-sensitive)? -/
def matchCS : List Char → List Char → Bool
  | [], _ => true
  | _ :: _, [] => false
  | p :: ps, c :: cs => p = c && matchCS ps cs

/-- Does `pat` match literally at the head of `l` (case-insensitive)? -/
def matchCI : List Char → List Char → Bool
  | [], _ => true
  | _ :: _, [] => false
  | p :: ps, c :: cs => charEqCI p c && matchCI ps cs

/-- Is position `i` a line start (start of string or just after a newline)?
This is where `^` matches under the `m` regex flag. -/
def isLineStart (l : List Char) (i : Nat) : Bool :=
  i = 0 || l.get? (i - 1) == some '\n'

/-- End of the maximal whitespace run starting at `i` (greedy `\s*`/`\s+`). -/
def wsRunEnd (l : List Char) (i : Nat) : Nat :=
  i + ((l.drop i).takeWhile jsWhitespace).length

/-- ASCII digit (regex `\d`). -/
def isDigit (c : Char) : Bool :=
  '0' ≤ c && c ≤ '9'

/-- End of the maximal digit run starting at `i` (greedy `\d*`/`\d+`). -/
def digitRunEnd (l : List Char) (i : Nat) : Nat :=
  i + ((l.drop i).takeWhile isDigit).length

/-- Smallest index `e` with `start ≤ e < stop` satisfying `p`. -/
def findIdxFrom (p : Nat → Bool) (start stop : Nat) : Option Nat :=
  (List.range' start (stop - start)).find? p

/-!
## Key-section extraction (`src/utils/document-reader.ts:186-223`)

`extractKeySections` tries seven regex patterns.  Pattern 1 is
`/^#\s+.*$/m`.  Patterns 2-7 share the shape
`/^##\s+(N1|N2|...)[\s\S]*?(?=^##|\Z)/im`.  Two JavaScript quirks are part
of the faithful semantics:

* `\Z` is not an anchor in JavaScript regexes: it is a literal letter `Z`
  (case-insensitive here because of the `i` flag, so a lowercase `z` also
  matches).  A section match therefore extends from its heading to the
  first following line that starts with `##` or to the first following
  `z`/`Z` character, whichever comes first — and if neither exists the
  pattern does not match at that heading at all.
* the alternatives are tried left to right; in each pattern's list any two
  alternatives either start with distinct letters or one is a prefix of the
  other whose tail contains no `z`, `Z` or `##` line, so at a given heading
  position at most the first textually matching alternative can yield a
  match, which is what the scanner implements.
-/

/-- Lookahead `(?=^##|\Z)` under flags `im`: position `e` is either a line
start followed by `##`, or holds a literal `z`/`Z`. -/
def sectionEndLookahead (l : List Char) (e : Nat) : Bool :=
  (isLineStart l e && l.get? e == some '#' && l.get? (e + 1) == some '#') ||
  (l.get? e == some 'z' || l.get? e == some 'Z')

/-- Try the heading part `^##\s+(alt1|alt2|...)` at line-start position `p`;
returns the end position of the matched alternative. -/
def sectionHeadAt (alts : List (List Char)) (l : List Char) (p : Nat) : Option Nat :=
  if l.get? p == some '#' && l.get? (p + 1) == some '#' then
    let u := wsRunEnd l (p + 2)
    if p + 2 < u then
      alts.findSome? (fun a => if matchCI a (l.drop u) then some (u + a.length) else none)
    else none
  else none

/-- Model of `content.match(/^##\s+(alts)[\s\S]*?(?=^##|\Z)/im)`: the
leftmost line-start heading match whose lazy tail reaches a position where
the lookahead holds; `match[0]` runs from the heading to that position. -/
def findSection (alts : List (List Char)) (l : List Char) : Option (List Char) :=
  (List.range (l.length + 1)).findSome? (fun p =>
    if isLineStart l p then
      match sectionHeadAt alts l p with
      | some r =>
        match findIdxFrom (sectionEndLookahead l) r l.length with
        | some e => some ((l.drop p).take (e - p))
        | none => none
      | none => none
    else none)

/-- Model of `content.match(/^#\s+.*$/m)`: the leftmost line start holding
`#` followed by at least one whitespace character; the match runs through
the greedy whitespace and then to the end of the line. -/
def findMainTitle (l : List Char) : Option (List Char) :=
  (List.range (l.length + 1)).findSome? (fun p =>
    if isLineStart l p && l.get? p == some '#' then
      let u := wsRunEnd l (p + 1)
      if p + 1 < u then
        let k := u + ((l.drop u).takeWhile (fun c => c ≠ '\n')).length
        some ((l.drop p).take (k - p))
      else none
    else none)

/-- Alternatives of pattern 2, `(Executive Summary|Overview|Summary)`. -/
def summaryAlts : List (List Char) :=
  [("Executive Summary").data, ("Overview").data, ("Summary").data]

/-- Alternatives of pattern 3, `(Problem|Problem Statement)`. -/
def problemAlts : List (List Char) :=
  [("Problem").data, ("Problem Statement").data]

/-- Alternatives of pattern 4, `(Goals|Objectives|Success Metrics)`. -/
def goalsAlts : List (List Char) :=
  [("Goals").data, ("Objectives").data, ("Success Metrics").data]

/-- Alternatives of pattern 5, `(Requirements|Features)`. -/
def requirementsAlts : List (List Char) :=
  [("Requirements").data, ("Features").data]

/-- Alternatives of pattern 6, `(Architecture|System Design)`. -/
def architectureAlts : List (List Char) :=
  [("Architecture").data, ("System Design").data]

/-- Alternatives of pattern 7, `(Tech Stack|Technology)`. -/
def techAlts : List (List Char) :=
  [("Tech Stack").data, ("Technology").data]

/-- The alternative lists of the six `##` priority-section patterns, in
source order. -/
def sectionPatterns : List (List (List Char)) :=
  [summaryAlts, problemAlts, goalsAlts, requirementsAlts, architectureAlts, techAlts]

/-- The seven pattern-match results for `content`, in priority order. -/
def extractMatches (content : List Char) : List (Option (List Char)) :=
  findMainTitle content :: sectionPatterns.map (fun alts => findSection alts content)

/-- One iteration of the accumulation loop of `extractKeySections`: a match
is trimmed and appended when it still fits strictly under `maxLength`. -/
def extractStep (maxLength : Nat) (st : List (List Char) × Nat) :
    Option (List Char) → List (List Char) × Nat
  | some sec =>
    let s := jsTrimL sec
    if st.2 + s.length < maxLength then (st.1 ++ [s], st.2 + s.length) else st
  | none => st

/-- Model of `extractKeySections` (`src/utils/document-reader.ts:186-223`)
on character lists. -/
def extractKeySectionsL (content : List Char) (maxLength : Nat) : List Char :=
  if content.length ≤ maxLength then content
  else
    let st := (extractMatches content).foldl (extractStep maxLength) ([], 0)
    if st.1.isEmpty then content.take maxLength ++ ("\n\n...[truncated]").data
    else List.intercalate ("\n\n").data st.1

/-- Model of `extractKeySections` on strings (default `maxLength` is 4000 at
the call sites that omit it). -/
def extractKeySections (content : String) (maxLength : Nat) : String :=
  String.mk (extractKeySectionsL content.data maxLength)

/-!
## Context builder (`src/utils/context-builder.ts`)

File reading (`readSourceDocuments`, `src/utils/document-reader.ts:134-175`)
is abstracted by a function `fs : String → Option String` from a path to the
content of a readable file; `none` models every read failure (missing file,
directory, I/O error), which the source records and skips without aborting.
Path resolution against `basePath`/`cwd` is part of the abstracted file
system.
-/

/-- POSIX `path.basename`: the part after the last `/`. -/
def basename (p : String) : String :=
  String.mk ((p.data.reverse.takeWhile (fun c => c ≠ '/')).reverse)

/-- Model of `readSourceDocuments` restricted to what `buildPromptContext`
uses: the list of successfully read documents as `(filename, content)`
pairs, in path order.  A non-string path (possible through the unchecked
`as string[]` cast) makes the JavaScript `readDocument` throw internally
and be recorded as an error; the model likewise skips it. -/
def readSourceDocumentsModel (fs : String → Option String) (paths : List JsVal) :
    List (String × String) :=
  paths.filterMap (fun v =>
    match v with
    | .str p => (fs p).map (fun content => (basename p, content))
    | _ => none)

/-- Model of `formatKey` (`src/utils/context-builder.ts:53-62`):
insert a space before each ASCII capital, turn underscores into spaces,
capitalize the first word character of every word, trim. -/
def formatKey (key : String) : String :=
  let spaced := key.data.foldr
    (fun c acc => if 'A' ≤ c ∧ c ≤ 'Z' then ' ' :: c :: acc else c :: acc) []
  let underscored := spaced.map (fun c => if c = '_' then ' ' else c)
  let isWordChar := fun c : Char =>
    ('a' ≤ c ∧ c ≤ 'z') ∨ ('A' ≤ c ∧ c ≤ 'Z') ∨ ('0' ≤ c ∧ c ≤ '9') ∨ c = '_'
  let rec capsAux : List Char → Bool → List Char
    | [], _ => []
    | c :: cs, prevWord =>
      (if isWordChar c ∧ ¬ prevWord then c.toUpper else c) :: capsAux cs (isWordChar c)
  jsTrim (String.mk (capsAux underscored false))

/-- The truncation step at the end of `buildPromptContext`
(`src/utils/context-builder.ts:248-251`): when the composed text exceeds
`maxLength` it is cut at that character boundary and the marker
`'\n\n...[context truncated]'` is appended; the flag records whether this
happened. -/
def finalizeContext (c : String) (maxLength : Nat) : String × Bool :=
  if c.length > maxLength then
    (String.mk (c.data.take maxLength) ++ "\n\n...[context truncated]", true)
  else (c, false)

/-- Options of `buildPromptContext` (`ContextBuilderOptions`); `basePath`
is part of the abstracted file system. -/
structure ContextBuilderOptions where
  maxLength : Nat := 12000
  includeSourceDocs : Bool := true
  maxPerDocument : Nat := 4000

/-- Result of `buildPromptContext` (`BuiltContext`). -/
structure BuiltContext where
  promptContext : String
  length : Nat
  sections : List String
  sourceDocuments : List String
  answeredQuestions : List String
  truncated : Bool

/-- The known interview-question keys, grouped and ordered as in the source
(`prdQuestions ++ tdrQuestions ++ frontendQuestions ++ storyQuestions`). -/
def allKnownQuestions : List String :=
  ["problem", "targetUser", "successMetrics", "mvpScope", "businessContext",
   "architecture", "security", "scale", "deployment", "integrations",
   "renderingStrategy", "stateManagement", "bundleStrategy", "performanceTargets",
   "accessibility",
   "sprintPlanning", "definitionOfDone", "technicalConstraints"]

/-- Value of `value.trim()` for an interview answer.  The values are typed
`string | undefined`; a truthy non-string value would make the JavaScript
throw, an out-of-contract case the model renders with `ToString`. -/
def answerTrim : JsVal → String
  | .str s => jsTrim s
  | v => jsTemplateString v

/-- One rendered interview answer: `**FormattedKey:**\n<trimmed value>\n\n`. -/
def renderAnswer (k : String) (v : JsVal) : String :=
  "**" ++ formatKey k ++ ":**\n" ++ answerTrim v ++ "\n\n"

/-- The team-context summary entries (`teamInfo`), each guarded by the
truthiness of the corresponding property. -/
def teamInfoEntries (tc : JsVal) : List String :=
  let prop : String → Option JsVal := fun k =>
    match tc with
    | .obj kvs => (kvs.find? (fun q => q.1 = k)).map (fun q => q.2)
    | _ => none
  (match prop "velocity" with
   | some v => if v.truthy then ["Velocity: " ++ jsTemplateString v ++ " points/sprint"] else []
   | none => []) ++
  (match prop "sprintDuration" with
   | some v => if v.truthy then ["Sprint: " ++ jsTemplateString v ++ " weeks"] else []
   | none => []) ++
  (match prop "teamSize" with
   | some v => if v.truthy then ["Team Size: " ++ jsTemplateString v ++ " engineers"] else []
   | none => [])

/-- The composition phase of `buildPromptContext`
(`src/utils/context-builder.ts:107-243`), before truncation: the composed
context string, the section names, the read source filenames and the
answered question keys.  The composition follows the source exactly:
project header, user context, reference documents, interview answers (known
keys first, then custom keys in property order), tech stack, legacy
requirements (only when `mvpScope` was not among the answered questions),
team context. -/
def composeContext (fs : String → Option String) (config : ProjectConfigV2)
    (options : ContextBuilderOptions) :
    String × List String × List String × List String :=
  -- Project header
  let ctx₀ := "## Project: " ++ config.projectName ++ "\n\n"
  let sections₀ := ["Project Header"]
  -- 1. Free-form user context
  let userCtx : Bool :=
    match config.context with
    | some s => s ≠ "" && jsTrim s ≠ ""
    | none => false
  let ctx₁ := ctx₀ ++
    (match config.context with
     | some s => if s ≠ "" && jsTrim s ≠ "" then
         "## User-Provided Context\n\n" ++ jsTrim s ++ "\n\n" else ""
     | none => "")
  let sections₁ := sections₀ ++ (if userCtx then ["User Context"] else [])
  -- 2. Source documents
  let docs :=
    if options.includeSourceDocs then
      match config.sourceDocuments with
      | some paths => if paths.length > 0 then readSourceDocumentsModel fs paths else []
      | none => []
    else []
  let renderedDocs := docs.foldl (fun acc d =>
    let docContent :=
      if d.2.length > options.maxPerDocument
      then extractKeySections d.2 options.maxPerDocument
      else d.2
    acc ++ "\n### Source: " ++ d.1 ++ "\n\n" ++ jsTrim docContent ++ "\n") ""
  let ctx₂ := ctx₁ ++
    (if docs.length > 0 then "## Reference Documents\n" ++ renderedDocs ++ "\n" else "")
  let sourceDocuments := docs.map (fun d => d.1)
  let sections₂ := sections₁ ++ (if docs.length > 0 then ["Reference Documents"] else [])
  -- 3. Pre-answered interview questions
  let answers := config.interviewAnswers.getD []
  let hasAnswers : Bool :=
    config.interviewAnswers.isSome && answers.any (fun p => answerNonempty p.2)
  let knownAnswered := allKnownQuestions.filterMap (fun k =>
    match answers.find? (fun p => p.1 = k) with
    | some p => if answerNonempty p.2 then some (k, p.2) else none
    | none => none)
  let customAnswered := answers.filterMap (fun p =>
    if ¬ (p.1 ∈ allKnownQuestions) ∧ answerNonempty p.2 then some p else none)
  let answeredPairs := knownAnswered ++ customAnswered
  let ctx₃ := ctx₂ ++
    (if hasAnswers then
      "## Interview Answers\n\n" ++
        answeredPairs.foldl (fun acc p => acc ++ renderAnswer p.1 p.2) ""
     else "")
  let answeredQuestions := if hasAnswers then answeredPairs.map (fun p => p.1) else []
  let sections₃ := sections₂ ++ (if hasAnswers then ["Interview Answers"] else [])
  -- 4. Tech stack
  let techStackOn : Bool :=
    match config.techStack with
    | some l => l.length > 0
    | none => false
  let ctx₄ := ctx₃ ++
    (match config.techStack with
     | some l => if l.length > 0 then "## Tech Stack\n\n" ++ jsJoinSep ", " l ++ "\n\n" else ""
     | none => "")
  let sections₄ := sections₃ ++ (if techStackOn then ["Tech Stack"] else [])
  -- Legacy requirements (only when mvpScope was not answered)
  let reqsOn : Bool :=
    (match config.requirements with
     | some l => l.length > 0
     | none => false) && ¬ ("mvpScope" ∈ answeredQuestions)
  let ctx₅ := ctx₄ ++
    (if reqsOn then
      "## Requirements\n\n" ++
        String.intercalate "\n"
          ((config.requirements.getD []).map (fun r => "- " ++ jsTemplateString r)) ++
        "\n\n"
     else "")
  let sections₅ := sections₄ ++ (if reqsOn then ["Requirements"] else [])
  -- Team context
  let teamInfo :=
    match config.teamContext with
    | some tc => teamInfoEntries tc
    | none => []
  let teamOn : Bool := config.teamContext.isSome && teamInfo.length > 0
  let ctx₆ := ctx₅ ++
    (if teamOn then "## Team Context\n\n" ++ String.intercalate " | " teamInfo ++ "\n\n" else "")
  let sections₆ := sections₅ ++ (if teamOn then ["Team Context"] else [])
  (ctx₆, sections₆, sourceDocuments, answeredQuestions)

/-- Model of `buildPromptContext` (`src/utils/context-builder.ts:107-261`):
compose (see `composeContext`), truncate when over `maxLength` (see
`finalizeContext`), and return the trimmed context with its metadata. -/
def buildPromptContext (fs : String → Option String) (config : ProjectConfigV2)
    (options : ContextBuilderOptions := {}) : BuiltContext :=
  let c := composeContext fs config options
  let fin := finalizeContext c.1 options.maxLength
  { promptContext := jsTrim fin.1
    length := fin.1.length
    sections := c.2.1
    sourceDocuments := c.2.2.1
    answeredQuestions := c.2.2.2
    truncated := fin.2 }

/-!
## Sprint planning (`src/mastra/workflows/story-builder-workflow.ts:719-801`)

The step receives `detailedStories`, `epics`, `projectName`, `teamContext`.
Stories are modelled by the fields the step reads (`id`, `epicId`,
`priority`, `storyPoints`, `dependencies`); the narrative fields of the zod
schema (`title`, `asA`, acceptance criteria, test cases, ...) are never read
by the step and are omitted.  Story points and velocity are JavaScript
numbers that the step only adds and compares; they are modelled as `Int`.
-/

/-- Story priority, per the zod schema `z.enum(['P0', 'P1', 'P2'])`. -/
inductive Priority : Type where
  | P0
  | P1
  | P2
deriving DecidableEq, Repr

/-- The label of a priority, as carried in the JSON data. -/
def Priority.label : Priority → String
  | .P0 => "P0"
  | .P1 => "P1"
  | .P2 => "P2"

/-- Numeric rank of a priority; the labels are ordered lexicographically as
`"P0" < "P1" < "P2"`, which agrees with this rank. -/
def Priority.rank : Priority → Nat
  | .P0 => 0
  | .P1 => 1
  | .P2 => 2

/-- Model of `a.priority.localeCompare(b.priority)` restricted to the labels
`P0/P1/P2`, for which locale collation agrees with code-unit order: the sign
of the rank difference. -/
def priorityCompare (a b : Priority) : Int :=
  if a.rank < b.rank then -1 else if b.rank < a.rank then 1 else 0

/-- A detailed story, restricted to the fields `sprintPlanningStep` reads. -/
structure DetailedStory : Type where
  id : String
  epicId : String
  priority : Priority
  storyPoints : Int
  dependencies : List String
deriving DecidableEq, Repr

/-- An epic, restricted to the fields `sprintPlanningStep` reads (the step
only uses `id` and `name` for the sprint focus label). -/
structure Epic : Type where
  id : String
  name : String
deriving DecidableEq, Repr

/-- The sort comparator of `sprintPlanningStep`
(`story-builder-workflow.ts:724-733`): priorities first, then a direct
dependency between two equal-priority stories orders the depended-on story
first, otherwise 0. -/
def storyCompare (a b : DetailedStory) : Int :=
  if a.priority ≠ b.priority then priorityCompare a.priority b.priority
  else if b.id ∈ a.dependencies then 1
  else if a.id ∈ b.dependencies then -1
  else 0

/-- Stable insertion of `a` into `l`: `a` goes before the first element `b`
with `cmp a b ≤ 0`. -/
def jsSortInsert (cmp : α → α → Int) (a : α) : List α → List α
  | [] => [a]
  | b :: l => if cmp a b ≤ 0 then a :: b :: l else b :: jsSortInsert cmp a l

/-- Model of `Array.prototype.sort(cmp)` as a stable insertion sort.  ES2019
requires `Array.prototype.sort` to be stable; for a consistent comparator
every stable comparison sort produces the same output.  (`storyCompare` is
not a consistent comparator on stories with dependencies, where the
ECMAScript result is implementation-defined; the model fixes one stable
sort.) -/
def jsSort (cmp : α → α → Int) : List α → List α
  | [] => []
  | a :: l => jsSortInsert cmp a (jsSort cmp l)

/-- The sorted story list of the step:
`[...detailedStories].sort((a, b) => ...)`. -/
def sortedStories (detailedStories : List DetailedStory) : List DetailedStory :=
  jsSort storyCompare detailedStories

/-- A sprint-plan entry (`sprintPlan` element). -/
structure SprintPlanEntry : Type where
  sprintNumber : Nat
  stories : List String
  totalPoints : Int
  focus : String
deriving DecidableEq, Repr

/-- A story stamped with its sprint (`assignedStories` element). -/
structure AssignedStory : Type where
  story : DetailedStory
  sprint : Nat
deriving DecidableEq, Repr

/-- First-occurrence-order deduplication: `[...new Set(l)]`. -/
def dedupFirstAux [DecidableEq α] (seen : List α) : List α → List α
  | [] => []
  | x :: xs => if x ∈ seen then dedupFirstAux seen xs else x :: dedupFirstAux (x :: seen) xs

/-- Model of `[...new Set(l)]` (insertion-order iteration of a `Set`). -/
def dedupFirst [DecidableEq α] (l : List α) : List α :=
  dedupFirstAux [] l

/-- The epic name a story id contributes to the focus label:
`epics.find(e => e.id === s?.epicId)?.name || 'General'` where
`s = sortedStories.find(st => st.id === sId)`. -/
def focusName (sorted : List DetailedStory) (epics : List Epic) (sId : String) : String :=
  match sorted.find? (fun st => st.id = sId) with
  | some s =>
    match epics.find? (fun e => e.id = s.epicId) with
    | some e => if e.name = "" then "General" else e.name
    | none => "General"
  | none => "General"

/-- The focus label of a finished sprint: the deduplicated epic names of its
stories, joined by `', '`. -/
def sprintFocus (sorted : List DetailedStory) (epics : List Epic)
    (cur : List String) : String :=
  String.intercalate ", " (dedupFirst (cur.map (focusName sorted epics)))

/-- The allocation loop of `sprintPlanningStep`
(`story-builder-workflow.ts:747-791`), with explicit loop state
`(currentSprint, currentSprintPoints, currentSprintStories)`.  When adding
the next story would exceed `velocity` and the current sprint is non-empty,
the current sprint is closed and a fresh one started; the story is then
always added to the (possibly fresh) current sprint.  After the loop the
final in-progress sprint is flushed. -/
def allocLoop (velocity : Int) (focusOf : List String → String) :
    List DetailedStory → Nat → Int → List String →
    List SprintPlanEntry × List AssignedStory
  | [], currentSprint, currentPoints, currentStories =>
    if currentStories ≠ [] then
      ([{ sprintNumber := currentSprint, stories := currentStories,
          totalPoints := currentPoints, focus := focusOf currentStories }], [])
    else ([], [])
  | story :: rest, currentSprint, currentPoints, currentStories =>
    if currentPoints + story.storyPoints > velocity ∧ currentStories ≠ [] then
      let entry : SprintPlanEntry :=
        { sprintNumber := currentSprint, stories := currentStories,
          totalPoints := currentPoints, focus := focusOf currentStories }
      let rec' := allocLoop velocity focusOf rest (currentSprint + 1)
        story.storyPoints [story.id]
      (entry :: rec'.1, { story := story, sprint := currentSprint + 1 } :: rec'.2)
    else
      let rec' := allocLoop velocity focusOf rest currentSprint
        (currentPoints + story.storyPoints) (currentStories ++ [story.id])
      (rec'.1, { story := story, sprint := currentSprint } :: rec'.2)

/-- The team context record used by the step. -/
structure TeamContext : Type where
  velocity : Int
  sprintDuration : Int
  teamSize : Int
deriving DecidableEq, Repr

/-- Output of `sprintPlanningStep` (the fields derived by the step). -/
structure SprintPlanningOutput : Type where
  finalStories : List AssignedStory
  sprintPlan : List SprintPlanEntry
deriving DecidableEq, Repr

/-- Model of `sprintPlanningStep.execute`
(`story-builder-workflow.ts:719-801`): sort, then allocate greedily starting
from sprint 1 with an empty in-progress sprint. -/
def sprintPlanningStep (detailedStories : List DetailedStory) (epics : List Epic)
    (teamContext : TeamContext) : SprintPlanningOutput :=
  let sorted := sortedStories detailedStories
  let r := allocLoop teamContext.velocity (sprintFocus sorted epics) sorted 1 0 []
  { finalStories := r.2, sprintPlan := r.1 }

/-!
## Jira CSV export (`cli/architect-auto.ts:295-355`)
-/

/-- Try the story-heading pattern `###\s+(US-\d+):\s*(.+?)(?=\n)` anchored at
position `j` (no `m` flag, so `###` may occur anywhere, including inside a
longer `####` run).  On success returns `(match[1], match[2], lastIndex)`:
the story id, the raw (untrimmed) title, and the end of `match[0]`.  The
greedy `\s*` after the colon backtracks from its maximal run until the lazy
`(.+?)(?=\n)` can place at least one non-newline character that is
eventually followed by a newline. -/
def storyHeadingAt (l : List Char) (j : Nat) : Option (String × String × Nat) :=
  if matchCS ("###").data (l.drop j) then
    let u := wsRunEnd l (j + 3)
    if j + 3 < u ∧ matchCS ("US-").data (l.drop u) then
      let d := digitRunEnd l (u + 3)
      if u + 3 < d ∧ l.get? d == some ':' then
        let storyId := String.mk ((l.drop u).take (d - u))
        let t := d + 1
        let u₂ := wsRunEnd l t
        let title? := ((List.range' t (u₂ - t + 1)).reverse).findSome? (fun w =>
          match l.get? w with
          | some c =>
            if c ≠ '\n' then
              (findIdxFrom (fun v => l.get? v == some '\n') (w + 1) l.length).map
                (fun v => (String.mk ((l.drop w).take (v - w)), v))
            else none
          | none => none)
        title?.map (fun p => (storyId, p.1, p.2))
      else none
    else none
  else none

/-- All matches of the global story pattern
`/###\s+(US-\d+):\s*(.+?)(?=\n)/g`: repeatedly find the leftmost heading
from the current `lastIndex` and continue after its `match[0]`.  The fuel
argument bounds the recursion; every match ends strictly right of where it
started, so `l.length + 1` steps suffice. -/
def storyMatchesAux (l : List Char) : Nat → Nat → List (String × String)
  | _, 0 => []
  | i, fuel + 1 =>
    match (List.range' i (l.length - i)).findSome? (fun j => storyHeadingAt l j) with
    | some (id, title, e) => (id, title) :: storyMatchesAux l e fuel
    | none => []

/-- Model of `[...storiesContent.matchAll(/###\s+(US-\d+):\s*(.+?)(?=\n)/g)]`,
as `(match[1], match[2])` pairs. -/
def storyMatches (l : List Char) : List (String × String) :=
  storyMatchesAux l 0 (l.length + 1)

/-- Try `Priority:\s*(P[012])` (flag `i`) at position `q`; returns the
captured two characters exactly as they occur in the text. -/
def priorityCaptureAt (l : List Char) (q : Nat) : Option String :=
  if matchCI ("Priority:").data (l.drop q) then
    let u := wsRunEnd l (q + 9)
    match l.get? u, l.get? (u + 1) with
    | some c, some d =>
      if (c = 'P' ∨ c = 'p') ∧ (d = '0' ∨ d = '1' ∨ d = '2') then
        some (String.mk [c, d])
      else none
    | _, _ => none
  else none

/-- Model of
`storiesContent.match(new RegExp(storyId + '[\s\S]*?Priority:\s*(P[012])', 'i'))`:
the match starts at the leftmost (case-insensitive) occurrence of the story
id from which some later `Priority:` capture succeeds, and takes the first
such capture. -/
def findPriorityFor (l : List Char) (storyId : String) : Option String :=
  (List.range l.length).findSome? (fun p =>
    if matchCI storyId.data (l.drop p) then
      (List.range' (p + storyId.length) (l.length - (p + storyId.length))).findSome?
        (fun q => priorityCaptureAt l q)
    else none)

/-- Try `Story Points:\s*(\d+)` (flag `i`) at position `q`; returns the
captured digit run. -/
def pointsCaptureAt (l : List Char) (q : Nat) : Option String :=
  if matchCI ("Story Points:").data (l.drop q) then
    let u := wsRunEnd l (q + 13)
    let d := digitRunEnd l u
    if u < d then some (String.mk ((l.drop u).take (d - u))) else none
  else none

/-- Model of
`storiesContent.match(new RegExp(storyId + '[\s\S]*?Story Points:\s*(\d+)', 'i'))`. -/
def findPointsFor (l : List Char) (storyId : String) : Option String :=
  (List.range l.length).findSome? (fun p =>
    if matchCI storyId.data (l.drop p) then
      (List.range' (p + storyId.length) (l.length - (p + storyId.length))).findSome?
        (fun q => pointsCaptureAt l q)
    else none)

/-- The CSV header row, `headers.join(',')`. -/
def jiraHeaders : String :=
  "Issue Type,Summary,Description,Priority,Story Points,Labels"

/-- The Jira priority mapping
`priority === 'P0' ? 'Highest' : priority === 'P1' ? 'High' : 'Medium'`. -/
def jiraPriorityOf (priority : String) : String :=
  if priority = "P0" then "Highest" else if priority = "P1" then "High" else "Medium"

/-- One data row of the export for a matched story heading. -/
def jiraRowFor (content : List Char) (projectKey projectName : String)
    (m : String × String) : List String :=
  let priority := (findPriorityFor content m.1).getD "P1"
  let points := (findPointsFor content m.1).getD "5"
  ["Story",
   "[" ++ projectKey ++ "] " ++ jsTrim m.2,
   "Generated from " ++ projectName ++ " documentation",
   jiraPriorityOf priority,
   points,
   "auto-generated"]

/-- The data rows of `generateJiraCSV`: one per matched heading, or the
fixed placeholder row when no heading matched. -/
def jiraRows (storiesContent projectKey projectName : String) : List (List String) :=
  let rows := (storyMatches storiesContent.data).map
    (jiraRowFor storiesContent.data projectKey projectName)
  if rows = [] then
    [["Story",
      "[" ++ projectKey ++ "] Initial Setup",
      "Review generated documentation for " ++ projectName,
      "High",
      "3",
      "auto-generated"]]
  else rows

/-- CSV cell escaping: double every embedded quote and wrap in quotes. -/
def csvEscape (cell : String) : String :=
  "\"" ++ String.mk (cell.data.foldr
    (fun c acc => if c = '"' then '"' :: '"' :: acc else c :: acc) []) ++ "\""

/-- Model of `generateJiraCSV` (`cli/architect-auto.ts:295-355`). -/
def generateJiraCSV (storiesContent projectKey projectName : String) : String :=
  String.intercalate "\n"
    (jiraHeaders ::
      (jiraRows storiesContent projectKey projectName).map
        (fun row => String.intercalate "," (row.map csvEscape)))

/-!
## Summary metrics (`cli/architect-auto.ts:500-513`)
-/

/-- Try `EPIC-\d+` at position `j`; returns the matched string and its end. -/
def epicMatchAt (l : List Char) (j : Nat) : Option (String × Nat) :=
  if matchCS ("EPIC-").data (l.drop j) then
    let d := digitRunEnd l (j + 5)
    if j + 5 < d then some ((String.mk ((l.drop j).take (d - j))), d) else none
  else none

/-- Try `US-\d+` at position `j`; returns the matched string and its end. -/
def usMatchAt (l : List Char) (j : Nat) : Option (String × Nat) :=
  if matchCS ("US-").data (l.drop j) then
    let d := digitRunEnd l (j + 3)
    if j + 3 < d then some ((String.mk ((l.drop j).take (d - j))), d) else none
  else none

/-- Try `Story Points:\s*(\d+)` (flag `i`) at `j`, returning the whole
`match[0]` and its end. -/
def pointsFullMatchAt (l : List Char) (j : Nat) : Option (String × Nat) :=
  if matchCI ("Story Points:").data (l.drop j) then
    let u := wsRunEnd l (j + 13)
    let d := digitRunEnd l u
    if u < d then some ((String.mk ((l.drop j).take (d - j))), d) else none
  else none

/-- Global matching for a fixed pattern matcher `m`: repeatedly take the
leftmost match from the current index and continue after it.  All patterns
used have non-empty matches, so the end strictly advances and `l.length + 1`
units of fuel suffice. -/
def globalMatchesAux (m : List Char → Nat → Option (String × Nat)) (l : List Char) :
    Nat → Nat → List String
  | _, 0 => []
  | i, fuel + 1 =>
    match (List.range' i (l.length - i)).findSome?
        (fun j => (m l j).map (fun r => (r.1, r.2))) with
    | some (s, e) => s :: globalMatchesAux m l e fuel
    | none => []

/-- Model of `str.match(/pat/g)` for the fixed patterns above (`[]` for a
`null` result). -/
def globalMatches (m : List Char → Nat → Option (String × Nat)) (l : List Char) :
    List String :=
  globalMatchesAux m l 0 (l.length + 1)

/-- Numeric value of a digit run (`parseInt` on the digits of the match). -/
def digitsToNat (ds : List Char) : Nat :=
  ds.foldl (fun n c => n * 10 + (c.toNat - ('0').toNat)) 0

/-- Model of `parseInt(match.replace(/\D/g, ''))` followed by the
`isNaN(num) ? 0 : num` guard: strip the non-digits and read the number, or 0
when no digit remains. -/
def parseDigits (s : String) : Int :=
  let ds := s.data.filter isDigit
  if ds = [] then 0 else (digitsToNat ds : Int)

/-- The extracted summary metrics of `executePipeline`
(`cli/architect-auto.ts:500-513`): deduplicated `EPIC-\d+` count (default 3),
deduplicated `US-\d+` count (default 10), and the sum of the numbers in
`Story Points: N` occurrences (default `storiesCount * 5`). -/
def summaryMetrics (storiesContent : String) : Nat × Nat × Int :=
  let l := storiesContent.data
  let epicsMatch := globalMatches epicMatchAt l
  let storiesMatch := globalMatches usMatchAt l
  let pointsMatches := globalMatches pointsFullMatchAt l
  let epicsCount := if epicsMatch = [] then 3 else (dedupFirst epicsMatch).length
  let storiesCount := if storiesMatch = [] then 10 else (dedupFirst storiesMatch).length
  let totalPoints : Int :=
    if pointsMatches = [] then (storiesCount : Int) * 5
    else pointsMatches.foldl (fun sum m => sum + parseDigits m) 0
  (epicsCount, storiesCount, totalPoints)

/-!
## Automation pipeline (`cli/architect-auto.ts`)

`executePipeline` builds prompts, calls the three agents, writes the
documents, optionally writes the Jira CSV, and extracts summary metrics.
The agent calls are external: the four generated texts enter the model as
parameters.  File writes are modelled by the returned paths (relative to the
process working directory that `path.join(process.cwd(), ...)` prefixes);
the prompt-construction and progress logging have no effect on the result
fields the claims are about and are not re-modelled here.
-/

/-- Model of `sanitizeFilename` (`cli/architect-auto.ts:268-270`): every
character outside `[a-zA-Z0-9-_]` becomes `-`, then the result is
lowercased (ASCII). -/
def sanitizeFilename (name : String) : String :=
  String.mk (name.data.map (fun c =>
    (if ('a' ≤ c ∧ c ≤ 'z') ∨ ('A' ≤ c ∧ c ≤ 'Z') ∨ ('0' ≤ c ∧ c ≤ '9') ∨
        c = '-' ∨ c = '_'
     then c else '-').toLower))

/-- The `documents` part of the pipeline result (paths of written files). -/
structure PipelineDocuments : Type where
  prd : String
  tdr : String
  frontendTdr : Option String
  stories : String
deriving DecidableEq, Repr

/-- The `summary` part of the pipeline result. -/
structure PipelineSummary : Type where
  epics : Nat
  stories : Nat
  totalPoints : Int
deriving DecidableEq, Repr

/-- The pipeline result (`PipelineResult`); `exportsJira` is
`exports.jira`, and `jiraCSV` records the content written there (when a
non-empty project key selected the export). -/
structure PipelineResult : Type where
  success : Bool
  documents : PipelineDocuments
  exportsJira : Option String
  jiraCSV : Option String
  summary : PipelineSummary
deriving DecidableEq, Repr

/-- Model of `executePipeline` (`cli/architect-auto.ts:360-551`).
`prdText`, `tdrText`, `frontendTdrText`, `storiesText` are the responses of
the agent calls; `timestamp` is `getTimestamp()` (the `YYYY-MM-DD` date).
The Frontend TDR step runs only when `normalizedConfig.hasFrontend` is
truthy, and the Jira export only when `normalizedConfig.jiraProjectKey` is
truthy (in particular not for an empty-string key). -/
def executePipeline (config : RawInput)
    (prdText tdrText frontendTdrText storiesText : String)
    (timestamp : String) : PipelineResult :=
  let n := normalizeConfig config
  let sanitizedName := sanitizeFilename n.projectName
  let prdPath := "docs/" ++ sanitizedName ++ "-prd-" ++ timestamp ++ ".md"
  let tdrPath := "docs/" ++ sanitizedName ++ "-tdr-" ++ timestamp ++ ".md"
  let frontendTdrPath : Option String :=
    if n.hasFrontend.getD false then
      some ("docs/" ++ sanitizedName ++ "-frontend-tdr-" ++ timestamp ++ ".md")
    else none
  let storiesPath := "docs/stories/" ++ sanitizedName ++ "-stories-" ++ timestamp ++ ".md"
  let jiraOn : Bool :=
    match n.jiraProjectKey with
    | some k => k ≠ ""
    | none => false
  let jiraExportPath : Option String :=
    if jiraOn then
      some ("docs/exports/" ++ sanitizedName ++ "-jira-" ++ timestamp ++ ".csv")
    else none
  let jiraCSV : Option String :=
    if jiraOn then
      some (generateJiraCSV storiesText (n.jiraProjectKey.getD "") n.projectName)
    else none
  let metrics := summaryMetrics storiesText
  { success := true
    documents :=
      { prd := prdPath, tdr := tdrPath, frontendTdr := frontendTdrPath,
        stories := storiesPath }
    exportsJira := jiraExportPath
    jiraCSV := jiraCSV
    summary := { epics := metrics.1, stories := metrics.2.1, totalPoints := metrics.2.2 } }

/-- Model of the CLI's `validateConfig` wrapper (`cli/architect-auto.ts:240-250`):
normalize, validate, and throw an `Error` joining the messages when any
validation error was collected. -/
def cliValidateConfig (config : RawInput) : Except String Unit :=
  let errors := validateConfig (normalizeConfig config)
  if errors.length > 0 then
    .error ("Configuration errors:\n  - " ++ String.intercalate "\n  - " errors)
  else .ok ()

/-- Model of the `main` flow after the configuration has been read
(`cli/architect-auto.ts:589-598`): `validateConfig(config)` runs first and a
thrown error aborts before `executePipeline` — hence before any
document-generation step — is invoked. -/
def mainModel (config : RawInput)
    (prdText tdrText frontendTdrText storiesText : String)
    (timestamp : String) : Except String PipelineResult :=
  match cliValidateConfig config with
  | .error e => .error e
  | .ok _ =>
    .ok (executePipeline config prdText tdrText frontendTdrText storiesText timestamp)

/-!
## Auxiliary definitions for the claims
-/

/-- Is the optional property present with a string value
(`typeof v === 'string'`)? -/
def isStringProp : Option JsVal → Bool
  | some (.str _) => true
  | _ => false

/-- ASCII `String.prototype.toLowerCase`. -/
def jsToLower (s : String) : String :=
  String.mk (s.data.map Char.toLower)

/-- The Jira export path as the specification words it:
`docs/exports/{key-lowercase}-stories-jira-{YYYY-MM-DD}.csv`.  This
definition follows the spec, for comparison against the path the code
builds (`executePipeline`). -/
def specJiraExportPath (jiraProjectKey timestamp : String) : String :=
  "docs/exports/" ++ jsToLower jiraProjectKey ++ "-stories-jira-" ++ timestamp ++ ".csv"

/-- The dependency-ordering property the claim asserts of the sorted story
list: whenever the story at position `i` lists the id of the story at
position `j` among its dependencies, the depended-on story comes first
(`j < i`). -/
def depsRespected (l : List DetailedStory) : Prop :=
  ∀ i j : Fin l.length, (l.get j).id ∈ (l.get i).dependencies → (j : Nat) < (i : Nat)

/-- Counterexample story A (depended on by C, same priority). -/
def exStoryA : DetailedStory :=
  { id := "A", epicId := "E1", priority := .P1, storyPoints := 3, dependencies := [] }

/-- Counterexample story B (unrelated, same priority). -/
def exStoryB : DetailedStory :=
  { id := "B", epicId := "E1", priority := .P1, storyPoints := 3, dependencies := [] }

/-- Counterexample story C (depends on A, same priority). -/
def exStoryC : DetailedStory :=
  { id := "C", epicId := "E1", priority := .P1, storyPoints := 3, dependencies := ["A"] }

/-- Witness stories for the sprint-allocation invariants: points 8, 5, 5, 3
and one oversized 15-point story, all priority `P0`, no dependencies. -/
def witnessStories : List DetailedStory :=
  [ { id := "US-001", epicId := "E1", priority := .P0, storyPoints := 8, dependencies := [] },
    { id := "US-002", epicId := "E1", priority := .P0, storyPoints := 5, dependencies := [] },
    { id := "US-003", epicId := "E1", priority := .P0, storyPoints := 5, dependencies := [] },
    { id := "US-004", epicId := "E2", priority := .P0, storyPoints := 3, dependencies := [] },
    { id := "US-005", epicId := "E2", priority := .P0, storyPoints := 15, dependencies := [] } ]

/-- Concrete raw input for the Jira-export claim: project `Demo App` with
project key `DEMO`. -/
def c6Input : RawInput :=
  { projectName := some (.str "Demo App"), jiraProjectKey := some (.str "DEMO") }

/-- The team context used by the sprint-planning witness: velocity 10. -/
def witnessTeam : TeamContext :=
  { velocity := 10, sprintDuration := 2, teamSize := 4 }

/-- The stories Markdown of the CSV-export claim: two story blocks with
priorities `P0`/`P2` and points `3`/`8`. -/
def csvClaimMarkdown : String :=
  "### US-0001: Title A\nPriority: P0\nStory Points: 3\n\n" ++
  "### US-0002: Title B\nPriority: P2\nStory Points: 8\n"

/-!
## Theorems

Helper lemmas first, then one theorem per claim (with counterexamples and
witnesses where required).
-/

theorem normStr_map_str (o : Option String) : normStr (o.map .str) = o := by
  cases o <;> rfl

theorem normArr_map_arr (o : Option (List JsVal)) : normArr (o.map .arr) = o := by
  cases o <;> rfl

theorem normObj_map_obj (o : Option (List (String × JsVal))) :
    normObj (o.map .obj) = o := by
  cases o <;> rfl

theorem normBool_map_bool (o : Option Bool) : normBool (o.map .bool) = o := by
  cases o <;> rfl

theorem normTeam_idem (o : Option JsVal) : normTeam (normTeam o) = normTeam o := by
  cases o with
  | none => rfl
  | some v => cases v <;> rfl

theorem applyDescription_none (ctx : Option String) :
    applyDescription none ctx = ctx := rfl

theorem applyRequirements_none (ans : Option (List (String × JsVal))) :
    applyRequirements none ans = ans := rfl

/-- C8: `normalizeConfig` is idempotent: renormalizing an already-normalized
configuration (read back as a raw record by the identity coercion `toRaw`)
reproduces exactly the same canonical fields.  Proved for every raw input,
valid or not. -/
theorem normalizeConfig_idempotent (c : RawInput) :
    normalizeConfig (ProjectConfigV2.toRaw (normalizeConfig c)) = normalizeConfig c := by
  simp only [normalizeConfig, ProjectConfigV2.toRaw, ProjectConfigV2.mk.injEq,
    applyDescription_none, applyRequirements_none,
    normStr_map_str, normArr_map_arr, normObj_map_obj, normBool_map_bool, normTeam_idem]
  repeat' apply And.intro
  all_goals first | rfl | trivial

theorem invalidMode_ne_missing (m : String) :
    "Invalid mode: " ++ m ++ ". Valid modes: PRD, TDR, FRONTEND_TDR, STORIES, ALL" ≠
      "Missing required field: projectName" := by
  intro h
  have h2 := congrArg (fun s => s.data.head?) h
  simp only [String.data_append] at h2
  simp at h2

theorem invalidSourceDoc_ne_missing (m : String) :
    "Invalid sourceDocument path: " ++ m ≠ "Missing required field: projectName" := by
  intro h
  have h2 := congrArg (fun s => s.data.head?) h
  simp only [String.data_append] at h2
  simp at h2

/-- A configuration whose `projectName` is a non-empty string never
collects the missing-`projectName` error, whatever its other fields. -/
theorem missing_not_mem_validate_of_nonempty (c : ProjectConfigV2)
    (h : c.projectName ≠ "") :
    "Missing required field: projectName" ∉ validateConfig c := by
  intro hmem
  simp only [validateConfig, h, if_false, if_neg, List.mem_append] at hmem
  rcases hmem with ((h1 | h2) | h3) | h4
  · simp at h1
  · split at h2 <;> simp at h2
  · revert h3
    cases hm : c.mode with
    | none => simp
    | some m =>
      simp only []
      split
      · intro h3
        simp at h3
        exact invalidMode_ne_missing m h3.symm
      · simp
  · revert h4
    cases hd : c.sourceDocuments with
    | none => simp
    | some l =>
      simp only [List.mem_filterMap]
      rintro ⟨v, hv, hmap⟩
      cases v <;> simp at hmap <;> exact invalidSourceDoc_ne_missing _ hmap

/-- C10: when the raw input's `projectName` is absent or not a string,
`normalizeConfig` substitutes `'Untitled Project'`, and consequently
`validateConfig` applied to the normalized configuration never returns the
missing-`projectName` error. -/
theorem normalize_defaults_projectName (c : RawInput)
    (h : isStringProp c.projectName = false) :
    (normalizeConfig c).projectName = "Untitled Project" ∧
      "Missing required field: projectName" ∉ validateConfig (normalizeConfig c) := by
  have hname : (normalizeConfig c).projectName = "Untitled Project" := by
    simp only [normalizeConfig]
    cases hp : c.projectName with
    | none => rfl
    | some v => cases v <;> first | rfl | (rw [hp] at h; simp [isStringProp] at h)
  exact ⟨hname, missing_not_mem_validate_of_nonempty _ (by rw [hname]; decide)⟩

/-- Witness for C10 at the concrete raw input `{ projectName: 7 }`. -/
theorem normalize_defaults_projectName_witness :
    isStringProp ({ projectName := some (.num 7) } : RawInput).projectName = false ∧
      (normalizeConfig { projectName := some (.num 7) }).projectName = "Untitled Project" ∧
      "Missing required field: projectName" ∉
        validateConfig (normalizeConfig { projectName := some (.num 7) }) :=
  ⟨rfl, normalize_defaults_projectName { projectName := some (.num 7) } rfl⟩

/-- C9: when the normalized configuration has no usable context source
(no truthy trimmed `context`, no non-empty `sourceDocuments`, no truthy
trimmed interview answer), `validateConfig` returns at least one error and
the CLI flow aborts with a thrown error before `executePipeline` — hence
before any document-generation step — runs. -/
theorem validate_rejects_contextless (c : RawInput)
    (h1 : hasContextB (normalizeConfig c) = false)
    (h2 : hasSourceDocsB (normalizeConfig c) = false)
    (h3 : hasInterviewAnswersB (normalizeConfig c) = false) :
    1 ≤ (validateConfig (normalizeConfig c)).length ∧
      ∀ (prd tdr ftdr stories ts : String),
        ∃ e, mainModel c prd tdr ftdr stories ts = Except.error e := by
  have hlen : 1 ≤ (validateConfig (normalizeConfig c)).length := by
    simp [validateConfig, h1, h2, h3]
    omega
  refine ⟨hlen, fun prd tdr ftdr stories ts =>
    ⟨"Configuration errors:\n  - " ++
      String.intercalate "\n  - " (validateConfig (normalizeConfig c)), ?_⟩⟩
  simp only [mainModel, cliValidateConfig]
  rw [if_pos (by omega)]

/-- Witness for C9 at the concrete input `{ projectName: "X" }` (no
context, no source documents, no interview answers). -/
theorem validate_rejects_contextless_witness :
    (1 ≤ (validateConfig (normalizeConfig { projectName := some (.str "X") })).length ∧
      ∀ (prd tdr ftdr stories ts : String),
        ∃ e, mainModel { projectName := some (.str "X") } prd tdr ftdr stories ts =
          Except.error e) :=
  validate_rejects_contextless { projectName := some (.str "X") } rfl rfl rfl

/-- C7 counterexample: the text `"Story Points: 7"` contains no `EPIC-\d+`
and no `US-\d+` token, yet `totalPoints` is 7 (the matched points), not the
claimed `storiesCount * 5 = 50`. -/
theorem summaryMetrics_counterexample :
    globalMatches epicMatchAt ("Story Points: 7").data = [] ∧
      globalMatches usMatchAt ("Story Points: 7").data = [] ∧
      summaryMetrics "Story Points: 7" = (3, 10, 7) ∧
      summaryMetrics "Story Points: 7" ≠ (3, 10, 50) := by
  refine ⟨by decide, by decide, by decide, by decide⟩

/-- C7 amended: when the stories text has no `EPIC-\d+` match, no `US-\d+`
match and additionally no `Story Points: N` match, the summary metrics are
the defaults `(3, 10, 10 * 5)`. -/
theorem summaryMetrics_defaults (s : String)
    (he : globalMatches epicMatchAt s.data = [])
    (hu : globalMatches usMatchAt s.data = [])
    (hp : globalMatches pointsFullMatchAt s.data = []) :
    summaryMetrics s = (3, 10, 50) := by
  simp [summaryMetrics, he, hu, hp]

/-- Witness for the amended C7 at the concrete input `"hello"`. -/
theorem summaryMetrics_defaults_witness :
    summaryMetrics "hello" = (3, 10, 50) :=
  summaryMetrics_defaults "hello" rfl rfl rfl

/-- C6 counterexample: for project `Demo App` with key `DEMO` the pipeline
writes the CSV to `docs/exports/demo-app-jira-{date}.csv` (the sanitized
project name), not to the claimed
`docs/exports/demo-stories-jira-{date}.csv` built from the lowercased key
with a `-stories-` segment. -/
theorem jiraPath_counterexample :
    (executePipeline c6Input "" "" "" "" "2026-01-12").exportsJira =
      some "docs/exports/demo-app-jira-2026-01-12.csv" ∧
    specJiraExportPath "DEMO" "2026-01-12" = "docs/exports/demo-stories-jira-2026-01-12.csv" ∧
    "docs/exports/demo-app-jira-2026-01-12.csv" ≠ specJiraExportPath "DEMO" "2026-01-12" := by
  refine ⟨rfl, rfl, by decide⟩

/-- C6 amended: the pipeline writes the Jira CSV exactly when the normalized
configuration carries a non-empty `jiraProjectKey`, and it writes it to
`docs/exports/{sanitized-project-name}-jira-{YYYY-MM-DD}.csv`. -/
theorem jira_export_iff (c : RawInput) (prd tdr ftdr stories ts : String) :
    ((normalizeConfig c).jiraProjectKey = none ∨ (normalizeConfig c).jiraProjectKey = some "" →
        (executePipeline c prd tdr ftdr stories ts).exportsJira = none) ∧
    (∀ k, (normalizeConfig c).jiraProjectKey = some k → k ≠ "" →
        (executePipeline c prd tdr ftdr stories ts).exportsJira =
          some ("docs/exports/" ++ sanitizeFilename (normalizeConfig c).projectName ++
            "-jira-" ++ ts ++ ".csv")) := by
  constructor
  · rintro (h | h) <;> simp [executePipeline, h]
  · intro k hk hne
    simp [executePipeline, hk, hne]

/-- Witness for the amended C6 at the `Demo App`/`DEMO` input. -/
theorem jira_export_iff_witness :
    (executePipeline c6Input "" "" "" "" "2026-01-12").exportsJira =
      some ("docs/exports/" ++
        sanitizeFilename (normalizeConfig c6Input).projectName ++
        "-jira-" ++ "2026-01-12" ++ ".csv") :=
  (jira_export_iff c6Input "" "" "" "" "2026-01-12").2 "DEMO" rfl (by decide)

set_option maxRecDepth 8192

/-- C5: `generateJiraCSV` emits one data row per matched `### US-\d+:`
heading (and exactly one placeholder row when nothing matches); the priority
mapping sends P0 to Highest, P1 to High, P2 to Medium; on the two-story
Markdown of the claim the CSV has exactly the two expected data rows with
priorities Highest/Medium and points 3/8, and on heading-free Markdown it
has exactly the placeholder row. -/
theorem generateJiraCSV_spec :
    (∀ (content key name : String),
        (jiraRows content key name).length =
          if storyMatches content.data = [] then 1 else (storyMatches content.data).length) ∧
      jiraPriorityOf "P0" = "Highest" ∧ jiraPriorityOf "P1" = "High" ∧
      jiraPriorityOf "P2" = "Medium" ∧
      generateJiraCSV csvClaimMarkdown "KEY" "Proj" =
        "Issue Type,Summary,Description,Priority,Story Points,Labels\n" ++
        "\"Story\",\"[KEY] Title A\",\"Generated from Proj documentation\",\"Highest\",\"3\",\"auto-generated\"\n" ++
        "\"Story\",\"[KEY] Title B\",\"Generated from Proj documentation\",\"Medium\",\"8\",\"auto-generated\"" ∧
      generateJiraCSV "No stories here\n" "KEY" "Proj" =
        "Issue Type,Summary,Description,Priority,Story Points,Labels\n" ++
        "\"Story\",\"[KEY] Initial Setup\",\"Review generated documentation for Proj\",\"High\",\"3\",\"auto-generated\"" := by
  refine ⟨fun content key name => ?_, rfl, rfl, rfl, by decide, by decide⟩
  by_cases h : storyMatches content.data = []
  · simp [jiraRows, h]
  · simp [jiraRows, h, List.map_eq_nil_iff, List.length_map]

theorem jsTrimL_length_le (l : List Char) : (jsTrimL l).length ≤ l.length := by
  simp only [jsTrimL, List.length_reverse]
  calc ((l.dropWhile jsWhitespace).reverse.dropWhile jsWhitespace).length
      ≤ (l.dropWhile jsWhitespace).reverse.length :=
        (List.dropWhile_sublist _).length_le
    _ = (l.dropWhile jsWhitespace).length := List.length_reverse _
    _ ≤ l.length := (List.dropWhile_sublist _).length_le

/-- Trimming a string that ends in the truncation marker keeps the marker as
a suffix: the marker starts with `[` and ends with `]`, neither of which is
whitespace. -/
theorem marker_suffix_jsTrimL (pre : List Char) :
    ("[context truncated]").data <:+ jsTrimL (pre ++ ("[context truncated]").data) := by
  have hm : (("[context truncated]").data).dropWhile jsWhitespace =
      ("[context truncated]").data := by decide
  have h1 : (pre ++ ("[context truncated]").data).dropWhile jsWhitespace =
      (pre.dropWhile jsWhitespace) ++ ("[context truncated]").data := by
    rw [List.dropWhile_append]
    split
    · rw [hm]
      simp_all
    · rfl
  rw [jsTrimL, h1]
  have h2 : ((pre.dropWhile jsWhitespace) ++ ("[context truncated]").data).reverse =
      (("[context truncated]").data).reverse ++ (pre.dropWhile jsWhitespace).reverse := by
    rw [List.reverse_append]
  rw [h2]
  have h3 : ∀ tail : List Char,
      ((("[context truncated]").data).reverse ++ tail).dropWhile jsWhitespace =
        (("[context truncated]").data).reverse ++ tail := by
    intro tail
    rfl
  rw [h3]
  rw [List.reverse_append, List.reverse_reverse]
  exact ⟨_, rfl⟩

/-- Behavior of the truncation step: the trimmed output is at most
`maxLength` plus the 24-character marker; without truncation it is at most
`maxLength`; with truncation it ends in `[context truncated]`. -/
theorem finalize_bounds (c : String) (maxLength : Nat) :
    (jsTrim (finalizeContext c maxLength).1).length ≤ maxLength + 24 ∧
      ((finalizeContext c maxLength).2 = false →
        (jsTrim (finalizeContext c maxLength).1).length ≤ maxLength) ∧
      ((finalizeContext c maxLength).2 = true →
        ("[context truncated]").data <:+ (jsTrim (finalizeContext c maxLength).1).data) := by
  by_cases h : c.length > maxLength
  · simp only [finalizeContext, if_pos h]
    have hdata : (String.mk (c.data.take maxLength) ++ "\n\n...[context truncated]").data =
        (c.data.take maxLength ++ ("\n\n...").data) ++ ("[context truncated]").data := by
      rw [String.data_append]
      simp [List.append_assoc]
    constructor
    · have hlen : (jsTrim (String.mk (c.data.take maxLength) ++ "\n\n...[context truncated]")).length ≤
          (String.mk (c.data.take maxLength) ++ "\n\n...[context truncated]").data.length := by
        simp only [jsTrim, String.length]
        exact jsTrimL_length_le _
      refine le_trans hlen ?_
      have h24 : ("\n\n...[context truncated]" : String).data.length = 24 := by decide
      have hx : (String.mk (c.data.take maxLength) ++ "\n\n...[context truncated]").data.length =
          (c.data.take maxLength).length + 24 := by
        rw [String.data_append, List.length_append, h24]
      have htake : (c.data.take maxLength).length ≤ maxLength := by
        simp [List.length_take]
      omega
    · refine ⟨fun hfalse => by simp at hfalse, fun _ => ?_⟩
      simp only [jsTrim, String.length]
      rw [hdata]
      exact marker_suffix_jsTrimL _
  · simp only [finalizeContext, if_neg h]
    have hlen : (jsTrim c).length ≤ c.length := by
      simp only [jsTrim, String.length]
      exact jsTrimL_length_le _
    have hc : c.length ≤ maxLength := Nat.le_of_not_lt h
    exact ⟨le_trans hlen (by omega), fun _ => le_trans hlen hc, fun htrue => by simp at htrue⟩

/-- C2 amended: the rendered context of `buildPromptContext` never exceeds
`maxLength` plus the 24 characters of the appended truncation marker
(`maxLength` alone when no truncation happened), and whenever the
`truncated` flag is set the output ends with the `[context truncated]`
marker. -/
theorem buildPromptContext_bounds (fs : String → Option String)
    (config : ProjectConfigV2) (options : ContextBuilderOptions) :
    (buildPromptContext fs config options).promptContext.length ≤ options.maxLength + 24 ∧
      ((buildPromptContext fs config options).truncated = false →
        (buildPromptContext fs config options).promptContext.length ≤ options.maxLength) ∧
      ((buildPromptContext fs config options).truncated = true →
        ("[context truncated]").data <:+
          (buildPromptContext fs config options).promptContext.data) :=
  finalize_bounds (composeContext fs config options).1 options.maxLength

/-- C2 counterexample: with `maxLength := 10` the configuration
`{ projectName: "Demo" }` yields a truncated context of 34 characters,
exceeding `maxLength` — the marker is appended after the cut, so the output
is not bounded by `maxLength`. -/
theorem buildPromptContext_counterexample :
    (buildPromptContext (fun _ => none) { projectName := "Demo" }
        { maxLength := 10 }).truncated = true ∧
      (buildPromptContext (fun _ => none) { projectName := "Demo" }
          { maxLength := 10 }).promptContext.length = 34 ∧
      ¬ ((buildPromptContext (fun _ => none) { projectName := "Demo" }
          { maxLength := 10 }).promptContext.length ≤ 10) := by
  refine ⟨rfl, rfl, by decide⟩

/-- Witness for the amended C2 at the `Demo`/`maxLength 10` input: the bound
`maxLength + 24` holds and the truncated output ends with the marker. -/
theorem buildPromptContext_bounds_witness :
    (buildPromptContext (fun _ => none) { projectName := "Demo" }
        { maxLength := 10 }).promptContext.length ≤ 10 + 24 ∧
      ("[context truncated]").data <:+
        (buildPromptContext (fun _ => none) { projectName := "Demo" }
          { maxLength := 10 }).promptContext.data :=
  ⟨(buildPromptContext_bounds (fun _ => none) { projectName := "Demo" } { maxLength := 10 }).1,
   (buildPromptContext_bounds (fun _ => none) { projectName := "Demo" } { maxLength := 10 }).2.2 rfl⟩

/-- The accumulation fold of `extractKeySections` only ever appends
sections, so membership is preserved. -/
theorem extractStep_mono (maxLength : Nat) (ms : List (Option (List Char)))
    (st : List (List Char) × Nat) (x : List Char) (hx : x ∈ st.1) :
    x ∈ (ms.foldl (extractStep maxLength) st).1 := by
  induction ms generalizing st with
  | nil => exact hx
  | cons a ms ih =>
    rw [List.foldl_cons]
    apply ih
    cases a with
    | none => exact hx
    | some sec =>
      simp only [extractStep]
      split
      · exact List.mem_append_left _ hx
      · exact hx

theorem infix_intercalate (sep : List Char) (l : List (List Char)) (x : List Char)
    (h : x ∈ l) : x <:+: List.intercalate sep l := by
  induction l with
  | nil => cases h
  | cons a t ih =>
    cases t with
    | nil =>
      have hx : x = a := by simpa using h
      subst hx
      have h1 : List.intercalate sep [x] = x := by
        simp [List.intercalate]
      rw [h1]
    | cons b t' =>
      have hsplit : List.intercalate sep (a :: b :: t') =
          a ++ (sep ++ List.intercalate sep (b :: t')) := by
        simp [List.intercalate, List.intersperse]
      rw [hsplit]
      rcases List.mem_cons.mp h with hx | hx
      · subst hx
        exact (List.prefix_append x _).isInfix
      · have h2 : x <:+: List.intercalate sep (b :: t') := ih hx
        refine h2.trans ?_
        exact ((List.suffix_append _ _).isInfix).trans ((List.suffix_append _ _).isInfix)

theorem foldl_extractStep_split (maxLength : Nat)
    (ms1 ms2 : List (Option (List Char))) (m : List Char)
    (hfit : (ms1.foldl (extractStep maxLength) ([], 0)).2 + (jsTrimL m).length < maxLength) :
    jsTrimL m ∈ ((ms1 ++ some m :: ms2).foldl (extractStep maxLength) ([], 0)).1 := by
  rw [List.foldl_append, List.foldl_cons]
  apply extractStep_mono
  simp only [extractStep]
  rw [if_pos hfit]
  exact List.mem_append_right _ (by simp)

/-- C4 amended: extraction returns the input unchanged whenever it fits the
target length; and for longer inputs, whenever the Problem-Statement pattern
produces a match (which requires a terminator: a following `##` line or a
`z`/`Z` character) and the trimmed match still fits strictly under the
target after the earlier main-title and summary patterns, that matched text
appears in the extracted output. -/
theorem extractKeySections_amended (content : List Char) (maxLength : Nat) :
    (content.length ≤ maxLength → extractKeySectionsL content maxLength = content) ∧
      (∀ m, maxLength < content.length →
        findSection problemAlts content = some m →
        (((extractMatches content).take 2).foldl (extractStep maxLength) ([], 0)).2 +
            (jsTrimL m).length < maxLength →
        (jsTrimL m) <:+: extractKeySectionsL content maxLength) := by
  constructor
  · intro h
    simp [extractKeySectionsL, h]
  · intro m hlt hm hfit
    have hnot : ¬ content.length ≤ maxLength := by omega
    simp only [extractKeySectionsL, if_neg hnot]
    have h7 : extractMatches content =
        findMainTitle content :: findSection summaryAlts content ::
          some m :: findSection goalsAlts content ::
          findSection requirementsAlts content :: findSection architectureAlts content ::
          [findSection techAlts content] := by
      rw [show extractMatches content =
          findMainTitle content :: findSection summaryAlts content ::
            findSection problemAlts content :: findSection goalsAlts content ::
            findSection requirementsAlts content :: findSection architectureAlts content ::
            [findSection techAlts content] from by simp [extractMatches, sectionPatterns], hm]
    rw [h7] at hfit ⊢
    simp only [List.take] at hfit
    have hmem : jsTrimL m ∈
        (((findMainTitle content :: [findSection summaryAlts content]) ++
          some m :: (findSection goalsAlts content ::
            findSection requirementsAlts content :: findSection architectureAlts content ::
            [findSection techAlts content])).foldl (extractStep maxLength) ([], 0)).1 :=
      foldl_extractStep_split maxLength _ _ m hfit
  -- the appended list is definitionally the literal list of h7
    have hmem' : jsTrimL m ∈
        ((findMainTitle content :: findSection summaryAlts content ::
          some m :: findSection goalsAlts content ::
          findSection requirementsAlts content :: findSection architectureAlts content ::
          [findSection techAlts content]).foldl (extractStep maxLength) ([], 0)).1 := hmem
    have hne : (((findMainTitle content :: findSection summaryAlts content ::
          some m :: findSection goalsAlts content ::
          findSection requirementsAlts content :: findSection architectureAlts content ::
          [findSection techAlts content]).foldl (extractStep maxLength) ([], 0)).1).isEmpty = false := by
      cases hl : ((findMainTitle content :: findSection summaryAlts content ::
          some m :: findSection goalsAlts content ::
          findSection requirementsAlts content :: findSection architectureAlts content ::
          [findSection techAlts content]).foldl (extractStep maxLength) ([], 0)).1 with
      | nil => rw [hl] at hmem'; cases hmem'
      | cons a t => rfl
    rw [hne]
    simp only [Bool.false_eq_true, if_false]
    exact infix_intercalate _ _ _ hmem'



/-- C4 counterexample: a document longer than the target that consists of a
`## Problem Statement` heading and filler contains no terminator for the
section pattern, so no pattern matches and the fallback truncation cuts at
10 characters — the Problem-Statement section (here the whole document, and
even its heading alone) does not appear in the output. -/
theorem extractKeySections_counterexample :
    10 < ("## Problem Statement\n" ++ String.mk (List.replicate 30 'a')).length ∧
      ("## Problem Statement").data <:+:
        ("## Problem Statement\n" ++ String.mk (List.replicate 30 'a')).data ∧
      ¬ (("## Problem Statement").data <:+:
        (extractKeySections ("## Problem Statement\n" ++ String.mk (List.replicate 30 'a'))
          10).data) := by
  refine ⟨by decide, by decide, by decide⟩

/-- Witness for the amended C4: a short input is returned unchanged, and a
long input whose Problem section is terminated by a `z` has the matched
section text inside the extracted output. -/
theorem extractKeySections_amended_witness :
    extractKeySectionsL ("short").data 100 = ("short").data ∧
      (jsTrimL ("## Problem ").data) <:+:
        extractKeySectionsL (("## Problem z").data ++ List.replicate 40 'a') 30 :=
  ⟨(extractKeySections_amended ("short").data 100).1 (by decide),
   (extractKeySections_amended (("## Problem z").data ++ List.replicate 40 'a') 30).2
     ("## Problem ").data (by decide) (by decide) (by decide)⟩


theorem jsSortInsert_perm (cmp : α → α → Int) (a : α) (l : List α) :
    (jsSortInsert cmp a l).Perm (a :: l) := by
  induction l with
  | nil => exact List.Perm.refl _
  | cons b t ih =>
    simp only [jsSortInsert]
    split
    · exact List.Perm.refl _
    · exact (List.Perm.cons b ih).trans (List.Perm.swap a b t)

theorem jsSort_perm (cmp : α → α → Int) (l : List α) : (jsSort cmp l).Perm l := by
  induction l with
  | nil => exact List.Perm.refl _
  | cons a t ih =>
    exact (jsSortInsert_perm cmp a (jsSort cmp t)).trans (List.Perm.cons a ih)

/-- When the comparator keeps `a` no later than `b` (`cmp a b ≤ 0`), the
priority rank of `a` is at most that of `b`. -/
theorem storyCompare_le_rank (a b : DetailedStory) (h : storyCompare a b ≤ 0) :
    a.priority.rank ≤ b.priority.rank := by
  cases ha : a.priority <;> cases hb : b.priority <;>
    simp_all [storyCompare, priorityCompare, Priority.rank]

/-- When the comparator orders `a` strictly after `b`, the priority rank of
`b` is at most that of `a`. -/
theorem storyCompare_gt_rank (a b : DetailedStory) (h : ¬ storyCompare a b ≤ 0) :
    b.priority.rank ≤ a.priority.rank := by
  cases ha : a.priority <;> cases hb : b.priority <;>
    simp_all [storyCompare, priorityCompare, Priority.rank]

/-- Inserting into a priority-sorted list keeps it priority-sorted: the
comparator respects priority order whenever the two priorities differ. -/
theorem jsSortInsert_pairwise_rank (a : DetailedStory) (l : List DetailedStory)
    (hl : l.Pairwise (fun x y => x.priority.rank ≤ y.priority.rank)) :
    (jsSortInsert storyCompare a l).Pairwise
      (fun x y => x.priority.rank ≤ y.priority.rank) := by
  induction l with
  | nil => simp [jsSortInsert]
  | cons b t ih =>
    rcases List.pairwise_cons.mp hl with ⟨hb, ht⟩
    simp only [jsSortInsert]
    split
    · case isTrue h =>
      refine List.pairwise_cons.mpr ⟨?_, hl⟩
      intro x hx
      rcases List.mem_cons.mp hx with hx | hx
      · subst hx
        exact storyCompare_le_rank a x h
      · exact le_trans (storyCompare_le_rank a b h) (hb x hx)
    · case isFalse h =>
      refine List.pairwise_cons.mpr ⟨?_, ih ht⟩
      intro x hx
      have hx2 : x ∈ a :: t := (jsSortInsert_perm storyCompare a t).mem_iff.mp hx
      rcases List.mem_cons.mp hx2 with hx2 | hx2
      · subst hx2
        exact storyCompare_gt_rank _ b h
      · exact hb x hx2

/-- C3 amended: in the sorted story order of the sprint-planning step, the
priorities are pairwise non-decreasing (every P0 before every P1 before
every P2), and the sorted list is a permutation of the input.  The
dependency half of the original claim is refuted by
the counterexample below. -/
theorem sortedStories_priority_pairwise (detailedStories : List DetailedStory) :
    (sortedStories detailedStories).Pairwise
      (fun x y => x.priority.rank ≤ y.priority.rank) ∧
    (sortedStories detailedStories).Perm detailedStories := by
  refine ⟨?_, jsSort_perm storyCompare detailedStories⟩
  unfold sortedStories
  induction detailedStories with
  | nil => simp [jsSort]
  | cons hd tl ih =>
    exact jsSortInsert_pairwise_rank hd (jsSort storyCompare tl) ih

/-- C3 counterexample: with equal-priority stories `[C, B, A]` where `C`
depends on `A` and `B` is unrelated, every comparison the sort performs
returns 0, so the stable sort returns the input order and the dependent `C`
(position 0) precedes its dependency `A` (position 2): a story listed as a
dependency is not ordered before its dependent, even for a direct pairwise
dependency. -/
theorem sortedStories_deps_counterexample :
    sortedStories [exStoryC, exStoryB, exStoryA] = [exStoryC, exStoryB, exStoryA] ∧
      exStoryA.id ∈ exStoryC.dependencies ∧
      exStoryC.priority = exStoryA.priority ∧
      ¬ depsRespected (sortedStories [exStoryC, exStoryB, exStoryA]) := by
  refine ⟨by decide, by decide, by decide, ?_⟩
  unfold depsRespected
  decide


/-- The closed sprints' story lists concatenate to the in-progress sprint
followed by the ids of the yet-unprocessed stories. -/
theorem allocLoop_join (velocity : Int) (focusOf : List String → String)
    (stories : List DetailedStory) (n : Nat) (pts : Int) (cur : List String) :
    ((allocLoop velocity focusOf stories n pts cur).1.map
        (fun e => e.stories)).join = cur ++ stories.map (fun s => s.id) := by
  induction stories generalizing n pts cur with
  | nil =>
    simp only [allocLoop]
    split
    · simp
    · case isFalse h =>
      have hc : cur = [] := by
        by_contra hc
        exact h hc
      simp [hc]
  | cons story rest ih =>
    simp only [allocLoop]
    split
    · simp [ih]
    · simp [ih]

/-- Budget invariant of the allocation loop: an emitted sprint with at least
two stories has a point total at most the velocity, because its last
admitted story passed the `currentSprintPoints + storyPoints > velocity`
check while the sprint was non-empty. -/
theorem allocLoop_bounded (velocity : Int) (focusOf : List String → String)
    (stories : List DetailedStory) (n : Nat) (pts : Int) (cur : List String)
    (hinv : cur ≠ [] → 2 ≤ cur.length → pts ≤ velocity) :
    ∀ e ∈ (allocLoop velocity focusOf stories n pts cur).1,
      2 ≤ e.stories.length → e.totalPoints ≤ velocity := by
  induction stories generalizing n pts cur with
  | nil =>
    simp only [allocLoop]
    split
    · case isTrue h =>
      intro e he
      rw [List.mem_singleton] at he
      subst he
      exact hinv h
    · intro e he
      cases he
  | cons story rest ih =>
    simp only [allocLoop]
    split
    · case isTrue h =>
      intro e he
      rcases List.mem_cons.mp he with he | he
      · subst he
        exact hinv h.2
      · exact ih (n + 1) story.storyPoints [story.id]
          (fun _ h2 => by simp at h2) e he
    · case isFalse h =>
      intro e he
      refine ih n (pts + story.storyPoints) (cur ++ [story.id]) ?_ e he
      intro _ hlen
      rcases not_and_or.mp h with h1 | h1
      · omega
      · have hc : cur = [] := not_not.mp h1
        rw [hc] at hlen
        simp at hlen

/-- From a state whose in-progress sprint holds exactly one oversized story
(`velocity < P`), that sprint is emitted as a singleton: either the list
ends and it is flushed, or the next story (with non-negative points) closes
it immediately. -/
theorem allocLoop_single (velocity : Int) (focusOf : List String → String)
    (rest : List DetailedStory) (n : Nat) (P : Int) (i : String)
    (hbig : velocity < P) (hall : ∀ x ∈ rest, 0 ≤ x.storyPoints) :
    ∃ e ∈ (allocLoop velocity focusOf rest n P [i]).1, e.stories = [i] := by
  cases rest with
  | nil =>
    simp only [allocLoop]
    rw [if_pos (by simp : ([i] : List String) ≠ [])]
    exact ⟨_, List.mem_singleton.mpr rfl, rfl⟩
  | cons r rs =>
    simp only [allocLoop]
    have hr : 0 ≤ r.storyPoints := hall r (List.mem_cons_self _ _)
    rw [if_pos (⟨by omega, by simp⟩ :
      P + r.storyPoints > velocity ∧ ([i] : List String) ≠ [])]
    exact ⟨_, List.mem_cons_self _ _, rfl⟩

/-- Every oversized story of the processed list ends up alone in a sprint,
provided points are non-negative and the in-progress total is non-negative
(zero when the sprint is empty). -/
theorem allocLoop_alone (velocity : Int) (focusOf : List String → String)
    (stories : List DetailedStory) (n : Nat) (pts : Int) (cur : List String)
    (hpts : 0 ≤ pts) (hcur : cur = [] → pts = 0)
    (hall : ∀ x ∈ stories, 0 ≤ x.storyPoints) :
    ∀ s ∈ stories, velocity < s.storyPoints →
      ∃ e ∈ (allocLoop velocity focusOf stories n pts cur).1, e.stories = [s.id] := by
  induction stories generalizing n pts cur with
  | nil =>
    intro s hs
    cases hs
  | cons story rest ih =>
    intro s hs hbig
    have hall' : ∀ x ∈ rest, 0 ≤ x.storyPoints :=
      fun x hx => hall x (List.mem_cons_of_mem _ hx)
    rcases List.mem_cons.mp hs with hs | hs
    · subst hs
      simp only [allocLoop]
      split
      · case isTrue h =>
        obtain ⟨e, he, hst⟩ :=
          allocLoop_single velocity focusOf rest (n + 1) s.storyPoints s.id hbig hall'
        exact ⟨e, List.mem_cons_of_mem _ he, hst⟩
      · case isFalse h =>
        have hcur0 : cur = [] := by
          by_contra hc
          exact h ⟨by omega, hc⟩
        rw [hcur0]
        simp only [List.nil_append]
        obtain ⟨e, he, hst⟩ := allocLoop_single velocity focusOf rest n
          (pts + s.storyPoints) s.id (by omega) hall'
        exact ⟨e, he, hst⟩
    · have hsp : 0 ≤ story.storyPoints := hall story (List.mem_cons_self _ _)
      simp only [allocLoop]
      split
      · case isTrue h =>
        obtain ⟨e, he, hst⟩ := ih (n + 1) story.storyPoints [story.id] hsp
          (fun hc => absurd hc (List.cons_ne_nil _ _)) hall' s hs hbig
        exact ⟨e, List.mem_cons_of_mem _ he, hst⟩
      · case isFalse h =>
        exact ih n (pts + story.storyPoints) (cur ++ [story.id]) (by omega)
          (fun hc => absurd hc (by simp)) hall' s hs hbig

/-- C1: for every story list with non-negative points (the data model's
Fibonacci estimates are positive) and every positive velocity, in the sprint
plan of the sprint-planning step (a) every sprint holding two or more
stories has a point total at most the velocity, (b) every story whose points
exceed the velocity gets a sprint of its own, and (c) the loop places every
story into exactly one sprint and always flushes the final in-progress
sprint: the concatenation of the plan's story lists is exactly the sorted
story id list (a permutation of the input).  Termination is by
construction. -/
theorem sprintPlanning_invariants (detailedStories : List DetailedStory)
    (epics : List Epic) (tc : TeamContext) (hv : 0 < tc.velocity)
    (hp : ∀ s ∈ detailedStories, 0 ≤ s.storyPoints) :
    (∀ e ∈ (sprintPlanningStep detailedStories epics tc).sprintPlan,
        2 ≤ e.stories.length → e.totalPoints ≤ tc.velocity) ∧
      (∀ s ∈ detailedStories, tc.velocity < s.storyPoints →
        ∃ e ∈ (sprintPlanningStep detailedStories epics tc).sprintPlan,
          e.stories = [s.id]) ∧
      ((sprintPlanningStep detailedStories epics tc).sprintPlan.map
          (fun e => e.stories)).join =
        (sortedStories detailedStories).map (fun s => s.id) ∧
      (sortedStories detailedStories).Perm detailedStories := by
  have hperm := jsSort_perm storyCompare detailedStories
  have hp' : ∀ s ∈ sortedStories detailedStories, 0 ≤ s.storyPoints :=
    fun s hs => hp s (hperm.mem_iff.mp hs)
  have hdef : (sprintPlanningStep detailedStories epics tc).sprintPlan =
      (allocLoop tc.velocity (sprintFocus (sortedStories detailedStories) epics)
        (sortedStories detailedStories) 1 0 []).1 := rfl
  refine ⟨?_, ?_, ?_, hperm⟩
  · rw [hdef]
    exact allocLoop_bounded tc.velocity _ _ 1 0 [] (fun hc => absurd rfl hc)
  · intro s hs hbig
    rw [hdef]
    exact allocLoop_alone tc.velocity _ _ 1 0 [] le_rfl (fun _ => rfl) hp' s
      (hperm.mem_iff.mpr hs) hbig
  · rw [hdef, allocLoop_join]
    simp

/-- Witness for C1: stories with points 8, 5, 5, 3 and an oversized 15 at
velocity 10. -/
theorem sprintPlanning_invariants_witness :
    (∀ e ∈ (sprintPlanningStep witnessStories [] witnessTeam).sprintPlan,
        2 ≤ e.stories.length → e.totalPoints ≤ witnessTeam.velocity) ∧
      (∀ s ∈ witnessStories, witnessTeam.velocity < s.storyPoints →
        ∃ e ∈ (sprintPlanningStep witnessStories [] witnessTeam).sprintPlan,
          e.stories = [s.id]) ∧
      ((sprintPlanningStep witnessStories [] witnessTeam).sprintPlan.map
          (fun e => e.stories)).join =
        (sortedStories witnessStories).map (fun s => s.id) ∧
      (sortedStories witnessStories).Perm witnessStories :=
  sprintPlanning_invariants witnessStories [] witnessTeam (by decide) (by decide)

end ArchitectAgent
